import Mathlib

/-!
Verification of the Duurzame Kennisbank front-end (script.js and the static
GitHub-Pages variant). The JavaScript is embedded shallowly: strings are
Lean `String`s (lists of characters), the global single-character regex
replace is `replaceChar`, DOM containers are modelled as the list of child
markup strings they hold, and the page controllers become explicit state
transformers.
-/

namespace Kennisbank

/-- The apostrophe character, written via its code point. -/
def apos : Char := Char.ofNat 39

/-- JS `x || ''` on a possibly absent string field. -/
def jsStr (o : Option String) : String := o.getD ""

/-- JS `r.tags || []` on a possibly absent tag array. -/
def jsTags (o : Option (List String)) : List String := o.getD []

/-- Boolean test that `p` occurs at the start of `l` (JS `startsWith`). -/
def leadsWith : List Char → List Char → Bool
  | [], _ => true
  | _ :: _, [] => false
  | p :: ps, x :: xs => p == x && leadsWith ps xs

/-- Boolean test that `pat` occurs somewhere inside `l` (JS `includes`). -/
def occursIn (pat : List Char) : List Char → Bool
  | [] => pat.isEmpty
  | x :: xs => leadsWith pat (x :: xs) || occursIn pat xs

/-- JS `s.includes(sub)` on strings. -/
def containsSub (s sub : String) : Bool := occursIn sub.data s.data

/-- JS `toLowerCase`, character by character (ASCII case mapping, as in
`Char.toLower`). It agrees with the library `String.toLower` but is stated
on the character list so that it evaluates by kernel reduction. -/
def jsToLower (s : String) : String := ⟨s.data.map Char.toLower⟩

theorem jsToLower_eq_toLower (s : String) : jsToLower s = s.toLower := by
  rw [String.toLower, String.map_eq]; rfl

theorem leadsWith_iff (p l : List Char) :
    leadsWith p l = true ↔ ∃ t, l = p ++ t := by
  induction p generalizing l with
  | nil => simp [leadsWith]
  | cons c ps ih =>
    cases l with
    | nil => simp [leadsWith]
    | cons x xs =>
      simp only [leadsWith, Bool.and_eq_true, beq_iff_eq, ih, List.cons_append,
        List.cons.injEq]
      constructor
      · rintro ⟨rfl, t, rfl⟩; exact ⟨t, rfl, rfl⟩
      · rintro ⟨t, rfl, rfl⟩; exact ⟨rfl, t, rfl⟩

theorem occursIn_iff (pat l : List Char) :
    occursIn pat l = true ↔ ∃ u v, l = u ++ pat ++ v := by
  induction l with
  | nil =>
    simp only [occursIn, List.isEmpty_iff]
    constructor
    · rintro rfl; exact ⟨[], [], rfl⟩
    · rintro ⟨u, v, h⟩
      rcases List.append_eq_nil.mp h.symm with ⟨h1, h2⟩
      exact (List.append_eq_nil.mp h1).2
  | cons x xs ih =>
    simp only [occursIn, Bool.or_eq_true, leadsWith_iff, ih]
    constructor
    · rintro (⟨t, h⟩ | ⟨u, v, h⟩)
      · exact ⟨[], t, by simp [h]⟩
      · exact ⟨x :: u, v, by simp [h]⟩
    · rintro ⟨u, v, h⟩
      cases u with
      | nil => exact Or.inl ⟨v, by simpa using h⟩
      | cons y u =>
        right
        simp only [List.cons_append, List.cons.injEq] at h
        exact ⟨u, v, h.2⟩

theorem occursIn_append_left (pat a b : List Char) (h : occursIn pat a = true) :
    occursIn pat (a ++ b) = true := by
  rw [occursIn_iff] at h ⊢
  obtain ⟨u, v, rfl⟩ := h
  exact ⟨u, v ++ b, by simp⟩

theorem occursIn_append_right (pat a b : List Char) (h : occursIn pat b = true) :
    occursIn pat (a ++ b) = true := by
  rw [occursIn_iff] at h ⊢
  obtain ⟨u, v, rfl⟩ := h
  exact ⟨a ++ u, v, by simp⟩

theorem occursIn_of_occursIn_append (p q l : List Char)
    (h : occursIn (p ++ q) l = true) : occursIn p l = true := by
  rw [occursIn_iff] at h ⊢
  obtain ⟨u, v, rfl⟩ := h
  exact ⟨u, q ++ v, by simp⟩

/-! ## escapeHtml

Source (script.js):
```
function escapeHtml(text) {
  if (!text) return '';
  return text
    .replace(/&/g, '&amp;')
    .replace(/</g, '&lt;')
    .replace(/>/g, '&gt;')
    .replace(/"/g, '&quot;')
    .replace(/'/g, '&#39;');
}
```
`String.prototype.replace` with a global single-character pattern replaces
every occurrence of that character, scanning left to right; `replaceChar`
is that operation on character lists. -/

/-- Global replacement of the single character `c` by `rep` (JS
`text.replace(/c/g, rep)`). -/
def replaceChar (c : Char) (rep : List Char) : List Char → List Char
  | [] => []
  | x :: xs => if x = c then rep ++ replaceChar c rep xs else x :: replaceChar c rep xs

/-- String-level wrapper for `replaceChar`. -/
def jsReplaceAll (s : String) (c : Char) (rep : String) : String :=
  ⟨replaceChar c rep.data s.data⟩

/-- `escapeHtml` from script.js: empty (falsy) input returns the empty
string, otherwise the five chained global replaces run in source order. -/
def escapeHtml (text : String) : String :=
  if text = "" then ""
  else
    jsReplaceAll (jsReplaceAll (jsReplaceAll (jsReplaceAll (jsReplaceAll
      text '&' "&amp;") '<' "&lt;") '>' "&gt;") '"' "&quot;") apos "&#39;"

/-- Character-wise escaping map: each of the five reserved characters goes
to its entity, every other character is kept. The spec claims `escapeHtml`
coincides with applying this map to every character independently. -/
def escapeChar (c : Char) : List Char :=
  if c = '&' then "&amp;".data
  else if c = '<' then "&lt;".data
  else if c = '>' then "&gt;".data
  else if c = '"' then "&quot;".data
  else if c = apos then "&#39;".data
  else [c]

theorem replaceChar_cons (c : Char) (rep : List Char) (x : Char) (xs : List Char) :
    replaceChar c rep (x :: xs) =
      (if x = c then rep else [x]) ++ replaceChar c rep xs := by
  by_cases h : x = c <;> simp [replaceChar, h]

theorem replaceChar_append (c : Char) (rep xs ys : List Char) :
    replaceChar c rep (xs ++ ys) = replaceChar c rep xs ++ replaceChar c rep ys := by
  induction xs with
  | nil => rfl
  | cons x xs ih =>
    by_cases h : x = c <;> simp [replaceChar, h, ih]

theorem replaceChar_not_mem (c : Char) (rep xs : List Char) (h : c ∉ xs) :
    replaceChar c rep xs = xs := by
  induction xs with
  | nil => rfl
  | cons x xs ih =>
    simp only [List.mem_cons, not_or] at h
    simp [replaceChar, Ne.symm h.1, ih h.2]

/-- The five-stage replacement pipeline on character lists. -/
def esc5 (l : List Char) : List Char :=
  replaceChar apos "&#39;".data
    (replaceChar '"' "&quot;".data
      (replaceChar '>' "&gt;".data
        (replaceChar '<' "&lt;".data
          (replaceChar '&' "&amp;".data l))))

theorem esc5_cons (x : Char) (xs : List Char) :
    esc5 (x :: xs) = escapeChar x ++ esc5 xs := by
  have key : esc5 (x :: xs) =
      replaceChar apos "&#39;".data
        (replaceChar '"' "&quot;".data
          (replaceChar '>' "&gt;".data
            (replaceChar '<' "&lt;".data (if x = '&' then "&amp;".data else [x])))) ++
        esc5 xs := by
    unfold esc5
    rw [replaceChar_cons, replaceChar_append, replaceChar_append,
      replaceChar_append, replaceChar_append]
  rw [key]
  congr 1
  by_cases h1 : x = '&'
  · subst h1; decide
  by_cases h2 : x = '<'
  · subst h2; decide
  by_cases h3 : x = '>'
  · subst h3; decide
  by_cases h4 : x = '"'
  · subst h4; decide
  by_cases h5 : x = apos
  · subst h5; decide
  · rw [if_neg h1,
      replaceChar_not_mem '<' _ [x] (by simpa using Ne.symm h2),
      replaceChar_not_mem '>' _ [x] (by simpa using Ne.symm h3),
      replaceChar_not_mem '"' _ [x] (by simpa using Ne.symm h4),
      replaceChar_not_mem apos _ [x] (by simpa using Ne.symm h5)]
    simp [escapeChar, h1, h2, h3, h4, h5]

theorem esc5_eq_flatMap (l : List Char) : esc5 l = l.flatMap escapeChar := by
  induction l with
  | nil => rfl
  | cons x xs ih => rw [esc5_cons, ih, List.flatMap_cons]

theorem escapeHtml_data (s : String) :
    escapeHtml s = ⟨s.data.flatMap escapeChar⟩ := by
  by_cases h : s = ""
  · subst h; rfl
  · show (if s = "" then "" else _) = _
    rw [if_neg h]
    show (⟨esc5 s.data⟩ : String) = _
    rw [esc5_eq_flatMap]

/-- C1: `escapeHtml` replaces every occurrence of each of the five reserved
characters by its entity and nothing else — equivalently, it acts
independently on each character (so the ampersand introduced by an escape is
never escaped again) — and on the string holding the five reserved
characters once each it yields the five entities in order. -/
theorem escapeHtml_five_chars_C1 :
    (∀ s : String, escapeHtml s = ⟨s.data.flatMap escapeChar⟩) ∧
    escapeHtml ⟨['&', '<', '>', '"', apos]⟩ = "&amp;&lt;&gt;&quot;&#39;" ∧
    escapeChar '&' = "&amp;".data ∧ escapeChar '<' = "&lt;".data ∧
    escapeChar '>' = "&gt;".data ∧ escapeChar '"' = "&quot;".data ∧
    escapeChar apos = "&#39;".data :=
  ⟨escapeHtml_data, by decide, rfl, rfl, rfl, rfl, rfl⟩

/-! ## Data model

A resource record as consumed by the scripts: every field may be absent.
`title`, `description`, `url`, `file` default to the empty string, `tags`
to the empty array, exactly as the JS `|| ''` / `|| []` accesses do. -/

structure Resource where
  title : Option String
  description : Option String
  type : Option String
  tags : Option (List String)
  url : Option String
  file : Option String
deriving DecidableEq

/-! ## fetchResources (static variant, part_000)

```
function fetchResources(q, type) {
  return getData().then((resources) => {
    let filtered = resources;
    if (q) {
      const term = (jsToLower q)Case();
      filtered = filtered.filter((r) => (r.title || '').toLowerCase().includes(term)
        || (r.description || '').toLowerCase().includes(term));
    }
    if (type) {
      const t = type.toLowerCase();
      filtered = filtered.filter((r) => (r.type || '').toLowerCase() === t);
    }
    return filtered;
  });
}
```
The data source is passed explicitly; a falsy (empty) string skips the
corresponding filter stage. -/

def fetchResources (resources : List Resource) (q ty : String) : List Resource :=
  let filtered := resources
  let filtered :=
    if q = "" then filtered
    else
      let term := (jsToLower q)
      filtered.filter fun r =>
        containsSub (jsToLower (jsStr r.title)) term ||
        containsSub (jsToLower (jsStr r.description)) term
  let filtered :=
    if ty = "" then filtered
    else
      let t := (jsToLower ty)
      filtered.filter fun r => (jsToLower (jsStr r.type)) == t
  filtered

/-- Written from the spec: the subset of `R` whose title or description
contains `q` as a case-insensitive substring (absent fields read as empty). -/
def specQueryFilter (R : List Resource) (q : String) : List Resource :=
  R.filter fun r =>
    occursIn (jsToLower q).data (jsToLower (jsStr r.title)).data ||
    occursIn (jsToLower q).data (jsToLower (jsStr r.description)).data

/-- Written from the spec: the subset of `R` whose type equals `t`
case-insensitively (absent type read as empty). -/
def specTypeFilter (R : List Resource) (t : String) : List Resource :=
  R.filter fun r => decide ((jsToLower (jsStr r.type)) = (jsToLower t))

/-- C3: for a non-empty query and empty type constraint, `fetchResources`
returns exactly the subset whose title or description contains the query as
a case-insensitive substring; either field matching qualifies, and the
match predicate is genuine substring containment. -/
theorem fetchResources_query_C3 (R : List Resource) (q : String) (hq : q ≠ "") :
    fetchResources R q "" = specQueryFilter R q ∧
    ∀ r : Resource,
      (occursIn (jsToLower q).data (jsToLower (jsStr r.title)).data ||
        occursIn (jsToLower q).data (jsToLower (jsStr r.description)).data) = true ↔
      ((∃ u v, (jsToLower (jsStr r.title)).data = u ++ (jsToLower q).data ++ v) ∨
       (∃ u v, (jsToLower (jsStr r.description)).data = u ++ (jsToLower q).data ++ v)) := by
  constructor
  · simp [fetchResources, specQueryFilter, containsSub, hq]
  · intro r
    rw [Bool.or_eq_true, occursIn_iff, occursIn_iff]

/-- Witness for C3 on the spec scenario collection and query "solar". -/
theorem fetchResources_query_C3_witness :
    fetchResources
      [{ title := some "Solar Guide", description := none, type := some "pdf",
         tags := some ["energy"], url := none, file := none },
       { title := some "Wind Report", description := none, type := some "doc",
         tags := some ["energy", "policy"], url := none, file := none }]
      "solar" "" =
      [{ title := some "Solar Guide", description := none, type := some "pdf",
         tags := some ["energy"], url := none, file := none }] := by
  have h := fetchResources_query_C3
    [{ title := some "Solar Guide", description := none, type := some "pdf",
       tags := some ["energy"], url := none, file := none },
     { title := some "Wind Report", description := none, type := some "doc",
       tags := some ["energy", "policy"], url := none, file := none }]
    "solar" (by decide)
  rw [h.1]
  decide

/-- C4: with an empty query, a non-empty type constraint selects exactly the
resources whose type matches case-insensitively, and the empty type
constraint returns the collection unchanged (hence order-preserving). -/
theorem fetchResources_type_C4 :
    (∀ (R : List Resource) (t : String), t ≠ "" →
      fetchResources R "" t = specTypeFilter R t) ∧
    ∀ R : List Resource, fetchResources R "" "" = R := by
  constructor
  · intro R t ht
    simp only [fetchResources, specTypeFilter, if_pos rfl, if_neg ht]
    refine List.filter_congr fun r _ => ?_
    by_cases h : (jsToLower (jsStr r.type)) = (jsToLower t) <;> simp [h]
  · intro R
    rfl

/-- Witness for C4 on the spec scenario collection and type "PDF". -/
theorem fetchResources_type_C4_witness :
    fetchResources
      [{ title := some "Solar Guide", description := none, type := some "pdf",
         tags := some ["energy"], url := none, file := none },
       { title := some "Wind Report", description := none, type := some "doc",
         tags := some ["energy", "policy"], url := none, file := none }]
      "" "PDF" =
      [{ title := some "Solar Guide", description := none, type := some "pdf",
         tags := some ["energy"], url := none, file := none }] ∧
    fetchResources [] "" "" = [] := by
  constructor
  · have h := fetchResources_type_C4.1
      [{ title := some "Solar Guide", description := none, type := some "pdf",
         tags := some ["energy"], url := none, file := none },
       { title := some "Wind Report", description := none, type := some "doc",
         tags := some ["energy", "policy"], url := none, file := none }]
      "PDF" (by decide)
    rw [h]
    decide
  · exact fetchResources_type_C4.2 []

/-! ## initResources tag filtering

From the filter-button click handler (identical in both variants):
```
const tag = btn.dataset.tag || '';
if (!tag) {
  renderResourceList(resources, listDiv);
} else {
  const filtered = resources.filter((r) =>
    (r.tags || []).map((t) => t.toLowerCase()).includes(tag.toLowerCase()));
  renderResourceList(filtered, listDiv);
}
```
`resources` is the closure-captured collection from the initial fetch, so
every click filters the original collection. -/

/-- The subset selected by one click on the button carrying `tag` (empty
`tag` is the "Alle" button). -/
def tagFilter (resources : List Resource) (tag : String) : List Resource :=
  if tag = "" then resources
  else resources.filter fun r =>
    ((jsTags r.tags).map jsToLower).contains (jsToLower tag)

/-- Written from the spec: items having some tag that matches `g`
case-insensitively (absent tag lists read as empty). -/
def specTagFilter (R : List Resource) (g : String) : List Resource :=
  R.filter fun r => decide (∃ t ∈ jsTags r.tags, jsToLower t = jsToLower g)

/-- The resources-page state: the collection captured at load time and the
subset currently displayed in the list container. -/
structure ResourcesPage where
  original : List Resource
  displayed : List Resource
deriving DecidableEq

/-- Effect of one click on a tag-filter button: the handler always filters
the captured original collection, never the displayed subset. -/
def clickTag (st : ResourcesPage) (tag : String) : ResourcesPage :=
  { original := st.original, displayed := tagFilter st.original tag }

theorem tagMatch_eq (l : List String) (g : String) :
    (l.map jsToLower).contains (jsToLower g) =
      decide (∃ t ∈ l, jsToLower t = jsToLower g) := by
  induction l with
  | nil => simp
  | cons x xs ih =>
    by_cases h : jsToLower x = jsToLower g
    · simp [h]
    · simp only [List.map_cons, List.contains_cons, ih]
      simp [h, Ne.symm h]

theorem foldl_clickTag_original (st : ResourcesPage) (l : List String) :
    (List.foldl clickTag st l).original = st.original := by
  induction l generalizing st with
  | nil => rfl
  | cons x xs ih => rw [List.foldl_cons, ih]; rfl

/-- C5: a non-empty tag selects exactly the items with a case-insensitively
matching tag; the empty tag yields the full collection; and after any
sequence of clicks the displayed subset is the last click's filter applied
to the original collection (clicks never compound). -/
theorem tagFilter_C5 (R : List Resource) (g : String) (clicks : List String)
    (hg : g ≠ "") :
    tagFilter R g = specTagFilter R g ∧
    tagFilter R "" = R ∧
    (List.foldl clickTag ⟨R, R⟩ (clicks ++ [g])).displayed = tagFilter R g := by
  refine ⟨?_, by simp [tagFilter], ?_⟩
  · simp only [tagFilter, specTagFilter, if_neg hg]
    exact List.filter_congr fun r _ => tagMatch_eq _ g
  · rw [List.foldl_append]
    show tagFilter (List.foldl clickTag ⟨R, R⟩ clicks).original g = _
    rw [foldl_clickTag_original]

/-- Witness for C5 on the spec scenario: the tag "policy", clicked after an
earlier "energy" click, selects exactly the Wind Report. -/
theorem tagFilter_C5_witness :
    (List.foldl clickTag
      ⟨[{ title := some "Solar Guide", description := none, type := some "pdf",
          tags := some ["energy"], url := none, file := none },
        { title := some "Wind Report", description := none, type := some "doc",
          tags := some ["energy", "policy"], url := none, file := none }],
        [{ title := some "Solar Guide", description := none, type := some "pdf",
           tags := some ["energy"], url := none, file := none },
         { title := some "Wind Report", description := none, type := some "doc",
           tags := some ["energy", "policy"], url := none, file := none }]⟩
      (["energy"] ++ ["policy"])).displayed =
      [{ title := some "Wind Report", description := none, type := some "doc",
         tags := some ["energy", "policy"], url := none, file := none }] := by
  have h := tagFilter_C5
    [{ title := some "Solar Guide", description := none, type := some "pdf",
       tags := some ["energy"], url := none, file := none },
     { title := some "Wind Report", description := none, type := some "doc",
       tags := some ["energy", "policy"], url := none, file := none }]
    "policy" ["energy"] (by decide)
  rw [h.2.2]
  decide

/-! ## initResources tag-button construction

```
const tags = new Set();
resources.forEach((r) => { (r.tags || []).forEach((t) => tags.add(t)); });
```
A JS `Set` of strings deduplicates by exact string equality and iterates in
insertion order; `uniqueTags` models it as a left fold of order-preserving
unique insertion. -/

/-- JS `Set.add`: append the element unless an equal one is present. -/
def addUnique (acc : List String) (t : String) : List String :=
  if t ∈ acc then acc else acc ++ [t]

/-- The distinct tag values, in first-occurrence order, from which the
filter buttons are built (one button per element). -/
def uniqueTags (resources : List Resource) : List String :=
  (resources.flatMap fun r => jsTags r.tags).foldl addUnique []

theorem mem_foldl_addUnique (l : List String) (acc : List String) (x : String) :
    x ∈ l.foldl addUnique acc ↔ x ∈ acc ∨ x ∈ l := by
  induction l generalizing acc with
  | nil => simp
  | cons y ys ih =>
    rw [List.foldl_cons, ih]
    unfold addUnique
    by_cases h : y ∈ acc
    · simp only [if_pos h, List.mem_cons]
      constructor
      · rintro (hx | hx)
        · exact Or.inl hx
        · exact Or.inr (Or.inr hx)
      · rintro (hx | rfl | hx)
        · exact Or.inl hx
        · exact Or.inl h
        · exact Or.inr hx
    · simp only [if_neg h, List.mem_append, List.mem_singleton, List.mem_cons]
      tauto

theorem nodup_foldl_addUnique (l : List String) (acc : List String)
    (h : acc.Nodup) : (l.foldl addUnique acc).Nodup := by
  induction l generalizing acc with
  | nil => exact h
  | cons y ys ih =>
    rw [List.foldl_cons]
    refine ih _ ?_
    unfold addUnique
    by_cases hy : y ∈ acc
    · simpa [hy] using h
    · rw [if_neg hy]
      exact List.Nodup.append h (List.nodup_singleton y)
        (by simpa using fun hx => hy hx)

theorem jsToLower_eq_empty_iff (s : String) : jsToLower s = "" ↔ s = "" := by
  constructor
  · intro h
    have hd : (jsToLower s).data = [] := by rw [h]
    simp only [jsToLower] at hd
    rcases s with ⟨d⟩
    simp only [List.map_eq_nil_iff] at hd
    rw [hd]
  · rintro rfl
    rfl

/-- C10: the tag set for the filter buttons is collected with case-sensitive
equality, so two tags differing only in case both occur (as distinct
entries) in the button list, while clicking either selects the same subset
because the click-time match lowercases both sides. -/
theorem uniqueTags_case_sensitive_C10 (R : List Resource) (t1 t2 : String)
    (hne : t1 ≠ t2) (hlow : jsToLower t1 = jsToLower t2)
    (h1 : t1 ∈ R.flatMap fun r => jsTags r.tags)
    (h2 : t2 ∈ R.flatMap fun r => jsTags r.tags) :
    t1 ∈ uniqueTags R ∧ t2 ∈ uniqueTags R ∧ (uniqueTags R).Nodup ∧
    tagFilter R t1 = tagFilter R t2 := by
  have hmem : ∀ x, x ∈ uniqueTags R ↔ x ∈ R.flatMap fun r => jsTags r.tags := by
    intro x
    rw [uniqueTags, mem_foldl_addUnique]
    simp
  refine ⟨(hmem t1).mpr h1, (hmem t2).mpr h2,
    nodup_foldl_addUnique _ _ List.nodup_nil, ?_⟩
  have ht1 : t1 ≠ "" ∨ t2 ≠ "" := by
    by_contra hc
    push_neg at hc
    exact hne (hc.1.trans hc.2.symm)
  have hboth : t1 ≠ "" ∧ t2 ≠ "" := by
    constructor
    · intro hc
      apply hne
      rw [hc] at hlow ⊢
      exact ((jsToLower_eq_empty_iff t2).mp hlow.symm).symm
    · intro hc
      apply hne
      rw [hc] at hlow ⊢
      exact (jsToLower_eq_empty_iff t1).mp hlow
  rw [tagFilter, tagFilter, if_neg hboth.1, if_neg hboth.2, hlow]

/-- Witness for C10: tags "Energy" and "energy" yield two distinct buttons
but the same filtered subset. -/
theorem uniqueTags_case_sensitive_C10_witness :
    uniqueTags
      [{ title := none, description := none, type := none,
         tags := some ["Energy"], url := none, file := none },
       { title := none, description := none, type := none,
         tags := some ["energy"], url := none, file := none }] =
      ["Energy", "energy"] ∧
    tagFilter
      [{ title := none, description := none, type := none,
         tags := some ["Energy"], url := none, file := none },
       { title := none, description := none, type := none,
         tags := some ["energy"], url := none, file := none }] "Energy" =
    tagFilter
      [{ title := none, description := none, type := none,
         tags := some ["Energy"], url := none, file := none },
       { title := none, description := none, type := none,
         tags := some ["energy"], url := none, file := none }] "energy" := by
  refine ⟨by decide, ?_⟩
  exact (uniqueTags_case_sensitive_C10
    [{ title := none, description := none, type := none,
       tags := some ["Energy"], url := none, file := none },
     { title := none, description := none, type := none,
       tags := some ["energy"], url := none, file := none }]
    "Energy" "energy" (by decide) (by decide) (by decide) (by decide)).2.2.2

/-! ## encodeURIComponent

Used for the `file` download link in script.js. ECMAScript keeps the
unreserved characters (letters, digits, `- _ . ! ~ * ( )` and the
apostrophe) and percent-encodes every other character's UTF-8 bytes with
uppercase hexadecimal digits. -/

/-- Characters `encodeURIComponent` leaves unescaped. -/
def isUnreservedEC (c : Char) : Bool :=
  (decide ('A' ≤ c) && decide (c ≤ 'Z')) ||
  (decide ('a' ≤ c) && decide (c ≤ 'z')) ||
  (decide ('0' ≤ c) && decide (c ≤ '9')) ||
  c == '-' || c == '_' || c == '.' || c == '!' || c == '~' || c == '*' ||
  c == apos || c == '(' || c == ')'

/-- Uppercase hexadecimal digit for `n < 16`. -/
def hexDigitU (n : Nat) : Char :=
  if n < 10 then Char.ofNat (48 + n) else Char.ofNat (55 + n)

/-- Percent-encoding of one byte. -/
def percentByte (b : Nat) : List Char :=
  ['%', hexDigitU (b / 16), hexDigitU (b % 16)]

/-- The UTF-8 bytes of one character. -/
def utf8Bytes (c : Char) : List Nat :=
  if c.toNat < 128 then [c.toNat]
  else if c.toNat < 2048 then [192 + c.toNat / 64, 128 + c.toNat % 64]
  else if c.toNat < 65536 then
    [224 + c.toNat / 4096, 128 + (c.toNat / 64) % 64, 128 + c.toNat % 64]
  else
    [240 + c.toNat / 262144, 128 + (c.toNat / 4096) % 64,
      128 + (c.toNat / 64) % 64, 128 + c.toNat % 64]

/-- JS `encodeURIComponent`. -/
def encodeURIComponent (s : String) : String :=
  ⟨s.data.flatMap fun c =>
    if isUnreservedEC c then [c] else (utf8Bytes c).flatMap percentByte⟩

/-! ## renderResourceList

```
function renderResourceList(items, container) {
  container.innerHTML = '';
  if (!items || items.length === 0) {
    container.innerHTML = '<p>Geen resultaten gevonden.</p>';
    return;
  }
  items.forEach((item) => { ... container.appendChild(div); });
}
```
The container is modelled as the list of its children's markup strings; a
card div serializes to `<div class="resource">` + its innerHTML + `</div>`.
The `file` branch below is the script.js (backend-API) one; the static
variant renders no link there. -/

def noResultsHtml : String := "<p>Geen resultaten gevonden.</p>"

/-- The `linkHtml` value computed for one item (script.js variant). -/
def linkHtmlOf (item : Resource) : String :=
  if jsStr item.url ≠ "" then
    "<a href=\"" ++ escapeHtml (jsStr item.url) ++
      "\" target=\"_blank\" rel=\"noopener noreferrer\">Bekijk bron</a>"
  else if jsStr item.file ≠ "" then
    "<a href=\"/uploads/" ++ encodeURIComponent (jsStr item.file) ++
      "\" target=\"_blank\" rel=\"noopener noreferrer\">Download</a>"
  else ""

/-- JS `array.join(', ')`. -/
def joinComma : List String → String
  | [] => ""
  | [s] => s
  | s :: rest => s ++ ", " ++ joinComma rest

/-- The `tagsHtml` value computed for one item. -/
def tagsHtmlOf (item : Resource) : String :=
  if (jsTags item.tags).isEmpty then ""
  else "<p class=\"tags\">Tags: " ++ joinComma ((jsTags item.tags).map escapeHtml) ++ "</p>"

/-- The innerHTML assigned to one card div. -/
def renderCardHtml (item : Resource) : String :=
  "<h3>" ++ escapeHtml (jsStr item.title) ++ "</h3><p>" ++
    escapeHtml (jsStr item.description) ++ "</p>" ++ tagsHtmlOf item ++
    (if linkHtmlOf item ≠ "" then "<p>" ++ linkHtmlOf item ++ "</p>" else "")

/-- The serialized markup of one card child. -/
def cardDivHtml (item : Resource) : String :=
  "<div class=\"resource\">" ++ renderCardHtml item ++ "</div>"

/-- `renderResourceList`: the container's children after the call. The prior
children are dropped first (`innerHTML = ''`), then either the single
no-results paragraph or one card div per item is installed. -/
def renderResourceList (items : Option (List Resource)) (container : List String) :
    List String :=
  let cleared := container.take 0
  if (items.getD []).isEmpty then cleared ++ [noResultsHtml]
  else cleared ++ (items.getD []).map cardDivHtml

/-- Concatenation of the container's children, i.e. its serialized markup. -/
def joinChildren : List String → String
  | [] => ""
  | s :: rest => s ++ joinChildren rest

/-- The full markup of the results container after rendering `items`. -/
def containerMarkup (items : Option (List Resource)) : String :=
  joinChildren (renderResourceList items [])

/-! Machinery for the XSS claim: in the rendered markup every `<` is a
template character followed by `d`, `/`, `h`, `p` or `a`, so the byte
sequence `<script` can never occur. -/

/-- Characters that may legitimately follow `<` in the rendered markup. -/
def okAfterLt (c : Char) : Bool :=
  c == 'd' || c == '/' || c == 'h' || c == 'p' || c == 'a'

/-- Every `<` in the list is followed (inside the list) by an allowed tag
character; in particular the list does not end in `<`. -/
def ltOkB : List Char → Bool
  | [] => true
  | [c] => c != '<'
  | c :: d :: rest => (if c = '<' then okAfterLt d else true) && ltOkB (d :: rest)

theorem ltOkB_append (a b : List Char) (ha : ltOkB a = true) (hb : ltOkB b = true) :
    ltOkB (a ++ b) = true := by
  induction a with
  | nil => exact hb
  | cons c a ih =>
    cases a with
    | nil =>
      cases b with
      | nil => exact ha
      | cons d rest =>
        have hc : (c != '<') = true := ha
        simp only [List.singleton_append, ltOkB, Bool.and_eq_true]
        refine ⟨?_, hb⟩
        rw [if_neg (by simpa using hc)]
    | cons d rest =>
      have ha' : (if c = '<' then okAfterLt d else true) = true ∧
          ltOkB (d :: rest) = true := by simpa [ltOkB] using ha
      simp only [List.cons_append, ltOkB, Bool.and_eq_true] at ih ⊢
      exact ⟨ha'.1, ih ha'.2⟩

theorem ltOkB_of_not_mem (l : List Char) (h : '<' ∉ l) : ltOkB l = true := by
  induction l with
  | nil => rfl
  | cons c l ih =>
    simp only [List.mem_cons, not_or] at h
    have hc : c ≠ '<' := fun hc => h.1 hc.symm
    cases l with
    | nil => simpa [ltOkB] using hc
    | cons d rest =>
      simp only [ltOkB, Bool.and_eq_true, if_neg hc]
      exact ⟨trivial, ih h.2⟩

theorem ltOkB_no_script_seg (u v : List Char) :
    ltOkB (u ++ '<' :: 's' :: v) = false := by
  induction u with
  | nil => simp [ltOkB, okAfterLt]
  | cons c u ih =>
    rcases hu : u ++ '<' :: 's' :: v with _ | ⟨d, rest⟩
    · exact absurd hu (by simp)
    · show ltOkB (c :: (u ++ '<' :: 's' :: v)) = false
      rw [hu]
      simp only [ltOkB, Bool.and_eq_false_iff]
      right
      rw [← hu]
      exact ih

theorem no_script_of_ltOkB (l : List Char) (h : ltOkB l = true) :
    occursIn ['<', 's'] l = false := by
  by_contra hc
  have hc2 : occursIn ['<', 's'] l = true := by
    cases hoc : occursIn ['<', 's'] l
    · exact absurd hoc hc
    · rfl
  obtain ⟨u, v, rfl⟩ := (occursIn_iff _ _).mp hc2
  rw [show u ++ ['<', 's'] ++ v = u ++ '<' :: 's' :: v by simp] at h
  rw [ltOkB_no_script_seg] at h
  exact absurd h (by simp)

theorem lt_not_mem_escapeChar (c : Char) : '<' ∉ escapeChar c := by
  by_cases h1 : c = '&'
  · subst h1; decide
  by_cases h2 : c = '<'
  · subst h2; decide
  by_cases h3 : c = '>'
  · subst h3; decide
  by_cases h4 : c = '"'
  · subst h4; decide
  by_cases h5 : c = apos
  · subst h5; decide
  · simp only [escapeChar, if_neg h1, if_neg h2, if_neg h3, if_neg h4, if_neg h5,
      List.mem_singleton]
    exact fun hc => h2 hc.symm

theorem lt_not_mem_escapeHtml (s : String) : '<' ∉ (escapeHtml s).data := by
  rw [escapeHtml_data]
  show '<' ∉ s.data.flatMap escapeChar
  intro hmem
  rw [List.mem_flatMap] at hmem
  obtain ⟨c, _, hc⟩ := hmem
  exact lt_not_mem_escapeChar c hc

theorem char_toNat_lt (c : Char) : c.toNat < 1114112 := by
  rcases c.valid with h | ⟨_, h⟩
  · exact Nat.lt_trans h (by norm_num)
  · exact h

theorem utf8Bytes_lt (c : Char) : ∀ b ∈ utf8Bytes c, b < 256 := by
  intro b hb
  have hc := char_toNat_lt c
  unfold utf8Bytes at hb
  by_cases h1 : c.toNat < 128
  · simp only [if_pos h1, List.mem_cons, List.not_mem_nil, or_false] at hb
    omega
  by_cases h2 : c.toNat < 2048
  · simp only [if_neg h1, if_pos h2, List.mem_cons, List.not_mem_nil, or_false] at hb
    rcases hb with rfl | rfl <;> omega
  by_cases h3 : c.toNat < 65536
  · simp only [if_neg h1, if_neg h2, if_pos h3, List.mem_cons, List.not_mem_nil,
      or_false] at hb
    rcases hb with rfl | rfl | rfl <;> omega
  · simp only [if_neg h1, if_neg h2, if_neg h3, List.mem_cons, List.not_mem_nil,
      or_false] at hb
    rcases hb with rfl | rfl | rfl | rfl <;> omega

theorem hexDigitU_ne_lt : ∀ n, n < 16 → hexDigitU n ≠ '<' := by decide

theorem lt_not_mem_percentByte (b : Nat) (hb : b < 256) : '<' ∉ percentByte b := by
  intro hmem
  simp only [percentByte, List.mem_cons, List.not_mem_nil, or_false] at hmem
  rcases hmem with h | h | h
  · exact absurd h (by decide)
  · exact hexDigitU_ne_lt (b / 16) (by omega) h.symm
  · exact hexDigitU_ne_lt (b % 16) (by omega) h.symm

theorem lt_not_mem_encode (s : String) : '<' ∉ (encodeURIComponent s).data := by
  show '<' ∉ s.data.flatMap _
  intro hmem
  rw [List.mem_flatMap] at hmem
  obtain ⟨c, _, hc⟩ := hmem
  by_cases h : isUnreservedEC c
  · rw [if_pos h, List.mem_singleton] at hc
    subst hc
    exact absurd h (by decide)
  · rw [if_neg h, List.mem_flatMap] at hc
    obtain ⟨b, hb, hcb⟩ := hc
    exact lt_not_mem_percentByte b (utf8Bytes_lt c b hb) hcb

theorem lt_not_mem_joinComma (L : List String) (h : ∀ s ∈ L, '<' ∉ s.data) :
    '<' ∉ (joinComma L).data := by
  induction L with
  | nil => simp [joinComma]
  | cons x rest ih =>
    cases rest with
    | nil => exact h x (by simp)
    | cons y r =>
      show '<' ∉ ((x ++ ", ") ++ joinComma (y :: r)).data
      rw [String.data_append, String.data_append]
      intro hmem
      rcases List.mem_append.mp hmem with hmem2 | hmem2
      · rcases List.mem_append.mp hmem2 with hmem3 | hmem3
        · exact h x (by simp) hmem3
        · revert hmem3; decide
      · exact ih (fun s hs => h s (List.mem_cons_of_mem x hs)) hmem2

theorem ltOkB_escapeHtml (s : String) : ltOkB (escapeHtml s).data = true :=
  ltOkB_of_not_mem _ (lt_not_mem_escapeHtml s)

theorem ltOkB_linkHtml (item : Resource) : ltOkB (linkHtmlOf item).data = true := by
  unfold linkHtmlOf
  by_cases h1 : jsStr item.url ≠ ""
  · rw [if_pos h1]
    rw [String.data_append, String.data_append]
    refine ltOkB_append _ _ (ltOkB_append _ _ (by decide) (ltOkB_escapeHtml _)) ?_
    decide
  · rw [if_neg h1]
    by_cases h2 : jsStr item.file ≠ ""
    · rw [if_pos h2]
      rw [String.data_append, String.data_append]
      refine ltOkB_append _ _ (ltOkB_append _ _ (by decide)
        (ltOkB_of_not_mem _ (lt_not_mem_encode _))) ?_
      decide
    · rw [if_neg h2]
      rfl

theorem ltOkB_tagsHtml (item : Resource) : ltOkB (tagsHtmlOf item).data = true := by
  unfold tagsHtmlOf
  by_cases h : (jsTags item.tags).isEmpty
  · rw [if_pos h]; rfl
  · rw [if_neg h]
    rw [String.data_append, String.data_append]
    refine ltOkB_append _ _ (ltOkB_append _ _ (by decide) ?_) (by decide)
    refine ltOkB_of_not_mem _ (lt_not_mem_joinComma _ ?_)
    intro s hs
    obtain ⟨t, _, rfl⟩ := List.mem_map.mp hs
    exact lt_not_mem_escapeHtml t

theorem ltOkB_card (item : Resource) : ltOkB (renderCardHtml item).data = true := by
  unfold renderCardHtml
  rw [String.data_append, String.data_append, String.data_append,
    String.data_append, String.data_append, String.data_append]
  refine ltOkB_append _ _ (ltOkB_append _ _ (ltOkB_append _ _ (ltOkB_append _ _
    (ltOkB_append _ _ (ltOkB_append _ _ (by decide) (ltOkB_escapeHtml _))
      (by decide)) (ltOkB_escapeHtml _)) (by decide)) (ltOkB_tagsHtml item)) ?_
  by_cases h : linkHtmlOf item ≠ ""
  · rw [if_pos h, String.data_append, String.data_append]
    exact ltOkB_append _ _ (ltOkB_append _ _ (by decide) (ltOkB_linkHtml item))
      (by decide)
  · rw [if_neg h]; rfl

theorem ltOkB_cardDiv (item : Resource) : ltOkB (cardDivHtml item).data = true := by
  unfold cardDivHtml
  rw [String.data_append, String.data_append]
  exact ltOkB_append _ _ (ltOkB_append _ _ (by decide) (ltOkB_card item)) (by decide)

theorem ltOkB_joinChildren (L : List String) (h : ∀ s ∈ L, ltOkB s.data = true) :
    ltOkB (joinChildren L).data = true := by
  induction L with
  | nil => rfl
  | cons x rest ih =>
    show ltOkB (x ++ joinChildren rest).data = true
    rw [String.data_append]
    exact ltOkB_append _ _ (h x (by simp))
      (ih fun s hs => h s (List.mem_cons_of_mem x hs))

theorem ltOkB_containerMarkup (items : Option (List Resource)) :
    ltOkB (containerMarkup items).data = true := by
  unfold containerMarkup renderResourceList
  by_cases h : (items.getD []).isEmpty
  · rw [if_pos h]; decide
  · rw [if_neg h]
    refine ltOkB_joinChildren _ ?_
    intro s hs
    simp only [List.take_zero, List.nil_append] at hs
    obtain ⟨item, _, rfl⟩ := List.mem_map.mp hs
    exact ltOkB_cardDiv item

theorem occursIn_self (pat : List Char) : occursIn pat pat = true :=
  (occursIn_iff _ _).mpr ⟨[], [], by simp⟩

theorem occursIn_trans (p q l : List Char) (h1 : occursIn p q = true)
    (h2 : occursIn q l = true) : occursIn p l = true := by
  rw [occursIn_iff] at h1 h2 ⊢
  obtain ⟨u2, v2, rfl⟩ := h2
  obtain ⟨u1, v1, hq⟩ := h1
  exact ⟨u2 ++ u1, v1 ++ v2, by simp [hq]⟩

theorem occursIn_joinComma (L : List String) (s : String) (hs : s ∈ L) :
    occursIn s.data (joinComma L).data = true := by
  induction L with
  | nil => cases hs
  | cons x rest ih =>
    cases rest with
    | nil =>
      rw [List.mem_singleton.mp hs]
      exact occursIn_self _
    | cons y r =>
      show occursIn s.data ((x ++ ", ") ++ joinComma (y :: r)).data = true
      rw [String.data_append, String.data_append]
      rcases List.mem_cons.mp hs with rfl | hs2
      · exact occursIn_append_left _ _ _ (occursIn_append_left _ _ _ (occursIn_self _))
      · exact occursIn_append_right _ _ _ (ih hs2)

theorem occursIn_joinChildren (pat : List Char) (L : List String) (s : String)
    (hs : s ∈ L) (h : occursIn pat s.data = true) :
    occursIn pat (joinChildren L).data = true := by
  induction L with
  | nil => cases hs
  | cons x rest ih =>
    show occursIn pat (x ++ joinChildren rest).data = true
    rw [String.data_append]
    rcases List.mem_cons.mp hs with rfl | hs2
    · exact occursIn_append_left _ _ _ h
    · exact occursIn_append_right _ _ _ (ih hs2)

theorem occursIn_card_title (item : Resource) :
    occursIn (escapeHtml (jsStr item.title)).data (renderCardHtml item).data = true := by
  rw [occursIn_iff]
  exact ⟨"<h3>".data,
    ("</h3><p>" ++ escapeHtml (jsStr item.description) ++ "</p>" ++ tagsHtmlOf item ++
      (if linkHtmlOf item ≠ "" then "<p>" ++ linkHtmlOf item ++ "</p>" else "")).data,
    by simp [renderCardHtml]⟩

theorem occursIn_card_desc (item : Resource) :
    occursIn (escapeHtml (jsStr item.description)).data (renderCardHtml item).data = true := by
  rw [occursIn_iff]
  exact ⟨("<h3>" ++ escapeHtml (jsStr item.title) ++ "</h3><p>").data,
    ("</p>" ++ tagsHtmlOf item ++
      (if linkHtmlOf item ≠ "" then "<p>" ++ linkHtmlOf item ++ "</p>" else "")).data,
    by simp [renderCardHtml]⟩

theorem occursIn_card_tag (item : Resource) (t : String) (ht : t ∈ jsTags item.tags) :
    occursIn (escapeHtml t).data (renderCardHtml item).data = true := by
  have hne : (jsTags item.tags).isEmpty = false := by
    cases hl : jsTags item.tags with
    | nil => rw [hl] at ht; cases ht
    | cons a l => rfl
  have h1 : occursIn (escapeHtml t).data
      (joinComma ((jsTags item.tags).map escapeHtml)).data = true :=
    occursIn_joinComma _ _ (List.mem_map_of_mem escapeHtml ht)
  have h2 : occursIn (escapeHtml t).data (tagsHtmlOf item).data = true := by
    unfold tagsHtmlOf
    rw [if_neg (by simp [hne])]
    rw [String.data_append, String.data_append]
    exact occursIn_append_left _ _ _ (occursIn_append_right _ _ _ h1)
  unfold renderCardHtml
  rw [String.data_append]
  apply occursIn_append_left
  rw [String.data_append]
  exact occursIn_append_right _ _ _ h2

theorem occursIn_container_of_item (pat : List Char) (items : List Resource)
    (item : Resource) (hmem : item ∈ items)
    (h : occursIn pat (renderCardHtml item).data = true) :
    occursIn pat (containerMarkup (some items)).data = true := by
  unfold containerMarkup renderResourceList
  rw [if_neg (by simpa using List.ne_nil_of_mem hmem)]
  refine occursIn_joinChildren pat _ (cardDivHtml item) ?_ ?_
  · simp only [List.take_zero, List.nil_append]
    exact List.mem_map_of_mem cardDivHtml hmem
  · unfold cardDivHtml
    rw [String.data_append, String.data_append]
    exact occursIn_append_left _ _ _ (occursIn_append_right _ _ _ h)

/-- C2: rendering a collection containing an item titled
`<script>x</script>` produces markup containing the escaped
`&lt;script&gt;` and no literal `<script>` anywhere; and every card carries
the escaped title, escaped description and each escaped tag. -/
theorem render_xss_C2 (items : List Resource) (item : Resource)
    (hmem : item ∈ items) (htitle : jsStr item.title = "<script>x</script>") :
    occursIn "&lt;script&gt;".data (containerMarkup (some items)).data = true ∧
    occursIn "<script>".data (containerMarkup (some items)).data = false ∧
    ∀ j : Resource,
      occursIn (escapeHtml (jsStr j.title)).data (renderCardHtml j).data = true ∧
      occursIn (escapeHtml (jsStr j.description)).data (renderCardHtml j).data = true ∧
      ∀ t ∈ jsTags j.tags, occursIn (escapeHtml t).data (renderCardHtml j).data = true := by
  refine ⟨?_, ?_, fun j =>
    ⟨occursIn_card_title j, occursIn_card_desc j, fun t ht => occursIn_card_tag j t ht⟩⟩
  · refine occursIn_container_of_item _ items item hmem ?_
    refine occursIn_trans _ (escapeHtml (jsStr item.title)).data _ ?_
      (occursIn_card_title item)
    rw [htitle]
    decide
  · have hno := no_script_of_ltOkB _ (ltOkB_containerMarkup (some items))
    cases hoc : occursIn "<script>".data (containerMarkup (some items)).data
    · rfl
    · exfalso
      have hdecomp : "<script>".data = ['<', 's'] ++ "cript>".data := by decide
      have := occursIn_of_occursIn_append ['<', 's'] "cript>".data
        (containerMarkup (some items)).data (hdecomp ▸ hoc)
      rw [hno] at this
      exact Bool.false_ne_true this

/-- Witness for C2 on a one-item collection with the script title. -/
theorem render_xss_C2_witness :
    occursIn "&lt;script&gt;".data
      (containerMarkup (some
        [{ title := some "<script>x</script>", description := none, type := none,
           tags := none, url := none, file := none }])).data = true ∧
    occursIn "<script>".data
      (containerMarkup (some
        [{ title := some "<script>x</script>", description := none, type := none,
           tags := none, url := none, file := none }])).data = false := by
  have h := render_xss_C2
    [{ title := some "<script>x</script>", description := none, type := none,
       tags := none, url := none, file := none }]
    { title := some "<script>x</script>", description := none, type := none,
      tags := none, url := none, file := none }
    (List.mem_singleton.mpr rfl) rfl
  exact ⟨h.1, h.2.1⟩

/-- C6: the rendered children do not depend on the container's prior
content; an empty or absent item list leaves exactly the single no-results
node and no cards; otherwise the children are exactly one card per item in
item order. -/
theorem renderResourceList_C6 (prior prior2 : List String)
    (items : Option (List Resource)) :
    renderResourceList items prior = renderResourceList items prior2 ∧
    ((items.getD []).isEmpty = true →
      renderResourceList items prior = [noResultsHtml]) ∧
    ((items.getD []).isEmpty = false →
      renderResourceList items prior = (items.getD []).map cardDivHtml) := by
  unfold renderResourceList
  cases h : (items.getD []).isEmpty <;> simp [h]

/-- Witness for C6: rendering the empty list over stale content leaves only
the no-results node, and rendering one item leaves exactly its card. -/
theorem renderResourceList_C6_witness :
    renderResourceList (some []) ["stale"] = [noResultsHtml] ∧
    renderResourceList
      (some [{ title := some "A", description := none, type := none,
               tags := none, url := none, file := none }]) ["stale"] =
      [cardDivHtml { title := some "A", description := none, type := none,
                     tags := none, url := none, file := none }] := by
  constructor
  · exact (renderResourceList_C6 ["stale"] [] (some [])).2.1 rfl
  · exact (renderResourceList_C6 ["stale"] []
      (some [{ title := some "A", description := none, type := none,
               tags := none, url := none, file := none }])).2.2 rfl

/-! ## getData (static variant, part_000)

```
let cachedData = null;
async function getData() {
  if (cachedData) return cachedData;
  const response = await fetch(DATA_URL);
  const data = await response.json();
  cachedData = data;
  return data;
}
```
The remote document is a JSON array of resource records (spec, external
interfaces), and a JS array is always truthy, so `if (cachedData)` is a
null test once an array has been stored; the cache is `Option` with `none`
for the initial `null`. `fetchCount` counts network requests. -/

structure FetchState where
  cachedData : Option (List Resource)
  fetchCount : Nat
deriving DecidableEq

/-- One call of `getData` against a remote document `remote`: return the
cache when set, otherwise fetch, store and return. -/
def getData (remote : List Resource) (st : FetchState) :
    List Resource × FetchState :=
  match st.cachedData with
  | some d => (d, st)
  | none => (remote, { cachedData := some remote, fetchCount := st.fetchCount + 1 })

/-- C7: from the initial empty cache the first call fetches once, returns
the document and stores it; every call on a set cache returns the cached
value with the state (cache and fetch count) unchanged — write-once,
read-many. -/
theorem getData_cache_C7 (remote : List Resource) :
    getData remote ⟨none, 0⟩ = (remote, ⟨some remote, 1⟩) ∧
    ∀ (st : FetchState) (d : List Resource), st.cachedData = some d →
      ∀ remote2, getData remote2 st = (d, st) := by
  refine ⟨rfl, ?_⟩
  intro st d hst remote2
  unfold getData
  rw [hst]

/-- Witness for C7: a fetch then a cache hit, no second fetch. -/
theorem getData_cache_C7_witness :
    getData [] ⟨none, 0⟩ = ([], ⟨some [], 1⟩) ∧
    getData [{ title := some "A", description := none, type := none,
               tags := none, url := none, file := none }]
      ⟨some [], 1⟩ = ([], ⟨some [], 1⟩) :=
  ⟨(getData_cache_C7 []).1,
    (getData_cache_C7 []).2 ⟨some [], 1⟩ [] rfl
      [{ title := some "A", description := none, type := none,
         tags := none, url := none, file := none }]⟩

/-! ## initHome search-button click

```
searchBtn.addEventListener('click', () => {
  const q = searchInput.value.trim();
  if (!q) {
    resultsDiv.innerHTML = '<p>Vul eerst een zoekterm in.</p>';
    return;
  }
  typeSelect.classList.remove('hidden');
  resultsDiv.innerHTML = '';
});
```
No fetch happens in this handler in either branch (fetching is wired to the
type buttons), so the fetch count is carried through unchanged to record
that. -/

/-- JS `String.prototype.trim`: strip leading and trailing whitespace. -/
def jsTrim (s : String) : String :=
  ⟨((s.data.dropWhile Char.isWhitespace).reverse.dropWhile Char.isWhitespace).reverse⟩

structure HomeState where
  resultsHtml : String
  typeSelectHidden : Bool
  fetchCount : Nat
deriving DecidableEq

/-- Effect of one search-button click with the current input value. -/
def searchButtonClick (searchValue : String) (st : HomeState) : HomeState :=
  let q := jsTrim searchValue
  if q = "" then { st with resultsHtml := "<p>Vul eerst een zoekterm in.</p>" }
  else { st with typeSelectHidden := false, resultsHtml := "" }

/-- C8: when the trimmed input is empty, the click writes the prompt
message into the results container, leaves the type selector's hidden state
as it was (so a hidden selector is not revealed) and issues no fetch. -/
theorem initHome_empty_query_C8 (searchValue : String) (st : HomeState)
    (h : jsTrim searchValue = "") :
    searchButtonClick searchValue st =
      { st with resultsHtml := "<p>Vul eerst een zoekterm in.</p>" } ∧
    (searchButtonClick searchValue st).typeSelectHidden = st.typeSelectHidden ∧
    (searchButtonClick searchValue st).fetchCount = st.fetchCount := by
  refine ⟨?_, ?_, ?_⟩ <;> simp [searchButtonClick, h]

/-- Witness for C8: clicking with a blank input shows the prompt and keeps
the selector hidden with zero fetches. -/
theorem initHome_empty_query_C8_witness :
    searchButtonClick "   " ⟨"", true, 0⟩ =
      ⟨"<p>Vul eerst een zoekterm in.</p>", true, 0⟩ :=
  (initHome_empty_query_C8 "   " ⟨"", true, 0⟩ (by decide)).1

/-! ## Controller wiring and missing DOM elements

Presence flags for the elements the controllers look up. `Except.error ()`
models an uncaught exception during wiring or first use, `Except.ok false`
a silent no-op return, `Except.ok true` successful wiring.

initHome (both variants) guards only two of its four elements:
```
if (!searchInput || !searchBtn) return;
searchBtn.addEventListener('click', ...);
typeSelect.addEventListener('click', ...);   // TypeError when type-select is missing
```
initUpload guards the form (`if (!form) return;`). initResources has no
guard at all: in the fetch callback `filterDiv.appendChild(...)` and
`renderResourceList(resources, listDiv)` throw when their element is
missing; the rejection reaches the catch handler, whose own
`listDiv.innerHTML = ...` throws again when the list container is missing,
otherwise it replaces the list with the load-error message. -/

structure Dom where
  searchInput : Bool
  searchButton : Bool
  typeSelect : Bool
  searchResults : Bool
  uploadForm : Bool
  uploadMessage : Bool
  resourceList : Bool
  tagFilterDiv : Bool
deriving DecidableEq

/-- Wiring outcome of `initHome`. -/
def initHome (d : Dom) : Except Unit Bool :=
  if !d.searchInput || !d.searchButton then Except.ok false
  else if !d.typeSelect then Except.error ()
  else Except.ok true

/-- Wiring outcome of `initUpload`. -/
def initUpload (d : Dom) : Except Unit Bool :=
  if !d.uploadForm then Except.ok false else Except.ok true

/-- Outcome of `initResources` up to the first render (ok `false` meaning
the catch handler replaced the list with the load-error message). -/
def initResources (d : Dom) : Except Unit Bool :=
  if d.tagFilterDiv && d.resourceList then Except.ok true
  else if d.resourceList then Except.ok false
  else Except.error ()

/-- Counterexample to C9: with both search elements present but the
type-select container missing, initHome throws during wiring instead of
silently no-opping. -/
theorem initHome_missing_typeSelect_C9_cex :
    initHome { searchInput := true, searchButton := true, typeSelect := false,
               searchResults := true, uploadForm := true, uploadMessage := true,
               resourceList := true, tagFilterDiv := true } = Except.error () := rfl

/-- C9 as amended: the home controller silently no-ops only when
search-input or search-button is missing, and the upload controller when
the form is missing; a missing type-select makes the home controller throw,
and the resources controller, which has no guard, ends in an uncaught error
when the list container is missing. -/
theorem init_guards_C9 (d : Dom) :
    ((d.searchInput = false ∨ d.searchButton = false) →
      initHome d = Except.ok false) ∧
    (d.uploadForm = false → initUpload d = Except.ok false) ∧
    (d.searchInput = true → d.searchButton = true → d.typeSelect = false →
      initHome d = Except.error ()) ∧
    (d.resourceList = false → initResources d = Except.error ()) := by
  refine ⟨?_, ?_, ?_, ?_⟩
  · rintro (h | h) <;> simp [initHome, h]
  · intro h; simp [initUpload, h]
  · intro h1 h2 h3; simp [initHome, h1, h2, h3]
  · intro h; simp [initResources, h]

/-- Witness for the amended C9 at concrete element sets. -/
theorem init_guards_C9_witness :
    initHome { searchInput := false, searchButton := true, typeSelect := true,
               searchResults := true, uploadForm := true, uploadMessage := true,
               resourceList := true, tagFilterDiv := true } = Except.ok false ∧
    initUpload { searchInput := true, searchButton := true, typeSelect := true,
                 searchResults := true, uploadForm := false, uploadMessage := true,
                 resourceList := true, tagFilterDiv := true } = Except.ok false ∧
    initResources { searchInput := true, searchButton := true, typeSelect := true,
                    searchResults := true, uploadForm := true, uploadMessage := true,
                    resourceList := false, tagFilterDiv := true } = Except.error () := by
  refine ⟨?_, ?_, ?_⟩
  · exact (init_guards_C9 _).1 (Or.inl rfl)
  · exact (init_guards_C9 _).2.1 rfl
  · exact (init_guards_C9 _).2.2.2 rfl

end Kennisbank
